import Mathlib

/-!
Verification of the document-upload-flow-builder core logic.

The embedding below translates the slot intake logic of
`src/components/DocumentUpload.tsx` (file validation, batch add,
removal, id generation) and the form aggregation logic of
`src/components/DocumentUploadForm.tsx` (validity, completion
percentage, submission) into Lean.  JavaScript strings are modelled by
Lean strings, with the character-level `split('.')` operation
implemented directly; the browser randomness source that produces ids
(`Math.random().toString(36).substr(2, 9)`) is modelled as an external
stream `idGen : Nat → String` consumed one value per accepted file;
the asynchronous preview read is modelled as an oracle
`readData : JsFile → String` giving the data URI of a file.
-/

/-- A browser `File` as the component observes it: name, byte size and
declared MIME type. -/
structure JsFile where
  name : String
  size : Nat
  mimeType : String
deriving DecidableEq, Repr

/-- `UploadedFile` from DocumentUpload.tsx: the underlying file, the
generated id, and the optional preview data URI. -/
structure UploadedFile where
  file : JsFile
  id : String
  preview : Option String
deriving DecidableEq, Repr

/-- JavaScript `str.split(sep)` for a single-character separator:
always returns at least one (possibly empty) segment. -/
def splitOnChar (sep : Char) : List Char → List (List Char)
  | [] => [[]]
  | c :: rest =>
    match splitOnChar sep rest with
    | [] => [[]]
    | s :: ss => if c = sep then [] :: s :: ss else (c :: s) :: ss

/-- `file.name.split('.').pop()?.toLowerCase()` from `validateFile`. -/
def fileExtension (name : String) : Option String :=
  ((splitOnChar '.' name.toList).getLast?).map (fun l => String.mk (l.map Char.toLower))

/-- The 10 MB size ceiling (`10 * 1024 * 1024` bytes) of `validateFile`. -/
def maxSize : Nat := 10 * 1024 * 1024

/-- The body of the `acceptedTypes.some(...)` callback in `validateFile`. -/
def typeTagMatches (ext : Option String) (tag : String) : Bool :=
  if tag = "PDF" then ext = some "pdf"
  else if tag = "JPG" then ext = some "jpg" || ext = some "jpeg"
  else if tag = "PNG" then ext = some "png"
  else false

/-- `validateFile` from DocumentUpload.tsx: `none` means the file is
accepted, `some msg` is the human-readable rejection reason. -/
def validateFile (acceptedTypes : List String) (file : JsFile) : Option String :=
  let fileExt := fileExtension file.name
  let isValidType := acceptedTypes.any (typeTagMatches fileExt)
  if !isValidType then
    some ("Invalid file type. Accepted types: " ++ String.intercalate ", " acceptedTypes)
  else if file.size > maxSize then
    some "File size must be less than 10MB"
  else
    none

/-- `generatePreview`: image files resolve with a data URI read from the
file (the read is modelled by the oracle `readData`), other files
resolve with no preview. -/
def generatePreview (readData : JsFile → String) (file : JsFile) : Option String :=
  if file.mimeType.startsWith "image/" then some (readData file) else none

/-- The component state touched by `handleFiles`/`removeFile`: the
accepted files and the current error messages. -/
structure SlotState where
  files : List UploadedFile
  errors : List String
deriving DecidableEq, Repr

/-- The `for (const file of filesToProcess)` loop of `handleFiles`:
accumulates per-file error messages and validated entries, consuming
one id from the stream `g` per accepted file (index `k` is the next
unread position of the stream). -/
def processCandidates (v : JsFile → Option String) (p : JsFile → Option String)
    (g : Nat → String) : List JsFile → Nat → List String → List UploadedFile →
    List String × List UploadedFile × Nat
  | [], k, errs, valids => (errs, valids, k)
  | f :: rest, k, errs, valids =>
    match v f with
    | some e => processCandidates v p g rest k (errs ++ [f.name ++ ": " ++ e]) valids
    | none => processCandidates v p g rest (k + 1) errs (valids ++ [⟨f, g k, p f⟩])

/-- `handleFiles` from DocumentUpload.tsx: capacity check first, then
per-file validation; any error leaves the file list unchanged, and only
an error-free batch is appended.  Returns the updated slot state and
the new position in the id stream. -/
def handleFiles (acceptedTypes : List String) (maxFiles : Nat)
    (p : JsFile → Option String) (g : Nat → String)
    (st : SlotState) (k : Nat) (fileList : List JsFile) : SlotState × Nat :=
  let r :=
    if st.files.length + fileList.length > maxFiles then
      (["Maximum " ++ toString maxFiles ++ " file(s) allowed"], ([] : List UploadedFile), k)
    else
      processCandidates (validateFile acceptedTypes) p g fileList k [] []
  if r.1.length > 0 then
    ({ files := st.files, errors := r.1 }, r.2.2)
  else
    ({ files := st.files ++ r.2.1, errors := [] }, r.2.2)

/-- `removeFile` from DocumentUpload.tsx, restricted to its effect on
the file list: keep every entry whose id differs. -/
def removeFile (id : String) (files : List UploadedFile) : List UploadedFile :=
  files.filter (fun f => f.id ≠ id)

/-- A slot operation triggered by one user interaction: a dropped or
selected batch, or the removal of one id. -/
inductive SlotOp where
  | add (batch : List JsFile)
  | remove (id : String)

/-- A slot's full history: its current state, the next unread position
in the id stream, and the log of every id ever inserted into the slot. -/
structure SlotTrace where
  state : SlotState
  counter : Nat
  insertedIds : List String

/-- One step of a slot's lifetime.  An `add` runs `handleFiles` and logs
the ids of the entries that were actually appended; a `remove` runs
`removeFile`. -/
def stepOp (acceptedTypes : List String) (maxFiles : Nat)
    (p : JsFile → Option String) (g : Nat → String) (s : SlotTrace) : SlotOp → SlotTrace
  | SlotOp.add batch =>
    let r := handleFiles acceptedTypes maxFiles p g s.state s.counter batch
    { state := r.1, counter := r.2,
      insertedIds := s.insertedIds ++ ((r.1.files.drop s.state.files.length).map (fun u => u.id)) }
  | SlotOp.remove id =>
    { s with state := { s.state with files := removeFile id s.state.files } }

/-- A slot's lifetime from its initial empty state under a sequence of
user interactions. -/
def runOps (acceptedTypes : List String) (maxFiles : Nat)
    (p : JsFile → Option String) (g : Nat → String) (ops : List SlotOp) : SlotTrace :=
  ops.foldl (stepOp acceptedTypes maxFiles p g) ⟨⟨[], []⟩, 0, []⟩

/-- `FormData` from DocumentUploadForm.tsx: one slot per document
category. -/
structure FormData where
  nationalId : List UploadedFile
  commercialRegistration : List UploadedFile
  taxCertificate : List UploadedFile
  companyLogo : List UploadedFile
deriving DecidableEq, Repr

/-- The initial (and post-reset) form state. -/
def emptyFormData : FormData := ⟨[], [], [], []⟩

/-- `isFormValid` from DocumentUploadForm.tsx. -/
def isFormValid (fd : FormData) : Bool :=
  decide (fd.nationalId.length > 0) && decide (fd.commercialRegistration.length > 0) &&
    decide (fd.taxCertificate.length > 0)

/-- The `completedSections` count inside `getCompletionPercentage`: how
many of the three required slots hold at least one file. -/
def completedSections (fd : FormData) : Nat :=
  ([fd.nationalId, fd.commercialRegistration, fd.taxCertificate].filter
    (fun l => l.length > 0)).length

/-- `getCompletionPercentage` from DocumentUploadForm.tsx:
`Math.round((completedSections / 3) * 100)` (`Math.round x = ⌊x + 1/2⌋`,
matching Mathlib's `round`). -/
def getCompletionPercentage (fd : FormData) : ℤ :=
  round ((completedSections fd : ℚ) / 3 * 100)

/-- What a submission attempt surfaces. -/
inductive SubmitOutcome where
  | validationIncomplete
  | success
  | failed
deriving DecidableEq, Repr

/-- The observable effects of one `handleSubmit` call. -/
structure SubmitResult where
  finalData : FormData
  enteredSubmitting : Bool
  transferInvoked : Bool
  outcome : SubmitOutcome
deriving DecidableEq, Repr

/-- `handleSubmit` from DocumentUploadForm.tsx.  The external transfer
call is opaque; its result is the parameter `transferOk`.  An invalid
form returns early (no Submitting state, no transfer, data unchanged);
otherwise the transfer runs and success resets every slot while failure
leaves the data unchanged. -/
def handleSubmit (transferOk : Bool) (fd : FormData) : SubmitResult :=
  if !isFormValid fd then
    ⟨fd, false, false, SubmitOutcome.validationIncomplete⟩
  else if transferOk then
    ⟨emptyFormData, true, true, SubmitOutcome.success⟩
  else
    ⟨fd, true, true, SubmitOutcome.failed⟩

/-- The per-file rejection messages of a batch, in batch order: the
error list `handleFiles` accumulates when the capacity check passes. -/
def errorMsgs (v : JsFile → Option String) : List JsFile → List String
  | [] => []
  | f :: rest =>
    match v f with
    | some e => (f.name ++ ": " ++ e) :: errorMsgs v rest
    | none => errorMsgs v rest

/-- The number of candidates of a batch that pass validation. -/
def countValid (v : JsFile → Option String) : List JsFile → Nat
  | [] => 0
  | f :: rest =>
    match v f with
    | some _ => countValid v rest
    | none => countValid v rest + 1

/-- The entries an error-free pass over a batch produces, ids drawn from
the stream `g` starting at position `k`. -/
def validEntries (v : JsFile → Option String) (p : JsFile → Option String)
    (g : Nat → String) : List JsFile → Nat → List UploadedFile
  | [], _ => []
  | f :: rest, k =>
    match v f with
    | some _ => validEntries v p g rest k
    | none => ⟨f, g k, p f⟩ :: validEntries v p g rest (k + 1)

theorem processCandidates_eq (v p : JsFile → Option String) (g : Nat → String) :
    ∀ (bs : List JsFile) (k : Nat) (errs : List String) (vs : List UploadedFile),
      processCandidates v p g bs k errs vs =
        (errs ++ errorMsgs v bs, vs ++ validEntries v p g bs k, k + countValid v bs) := by
  intro bs
  induction bs with
  | nil => intro k errs vs; simp [processCandidates, errorMsgs, validEntries, countValid]
  | cons f rest ih =>
    intro k errs vs
    cases h : v f with
    | some e =>
      simp [processCandidates, errorMsgs, validEntries, countValid, h, ih]
    | none =>
      simp [processCandidates, errorMsgs, validEntries, countValid, h, ih]
      omega

theorem errorMsgs_eq_nil_iff (v : JsFile → Option String) (bs : List JsFile) :
    errorMsgs v bs = [] ↔ ∀ f ∈ bs, v f = none := by
  induction bs with
  | nil => simp [errorMsgs]
  | cons f rest ih => cases h : v f <;> simp [errorMsgs, h, ih]

theorem mem_errorMsgs (v : JsFile → Option String) {bs : List JsFile} {f : JsFile}
    {e : String} (hf : f ∈ bs) (he : v f = some e) :
    (f.name ++ ": " ++ e) ∈ errorMsgs v bs := by
  induction bs with
  | nil => cases hf
  | cons b rest ih =>
    rcases List.mem_cons.mp hf with hf | hf
    · subst hf; simp [errorMsgs, he]
    · cases h : v b <;> simp [errorMsgs, h, ih hf]

theorem validEntries_map_id (v p : JsFile → Option String) (g : Nat → String) :
    ∀ (bs : List JsFile) (k : Nat),
      (validEntries v p g bs k).map (fun u => u.id) =
        (List.range' k (countValid v bs)).map g := by
  intro bs
  induction bs with
  | nil => intro k; simp [validEntries, countValid]
  | cons f rest ih =>
    intro k
    cases h : v f with
    | some e => simp [validEntries, countValid, h, ih]
    | none => simp [validEntries, countValid, h, ih, List.range'_succ k (countValid v rest) 1]

/-- The spec's phrasing of the type check: the lowercased extension maps
to one of the accepted tags, PDF→.pdf, JPG→.jpg/.jpeg, PNG→.png. -/
def specTypeOk (accepted : List String) (f : JsFile) : Prop :=
  ("PDF" ∈ accepted ∧ fileExtension f.name = some "pdf") ∨
  ("JPG" ∈ accepted ∧ (fileExtension f.name = some "jpg" ∨ fileExtension f.name = some "jpeg")) ∨
  ("PNG" ∈ accepted ∧ fileExtension f.name = some "png")

theorem typeTagMatches_eq_true (ext : Option String) (t : String) :
    typeTagMatches ext t = true ↔
      (t = "PDF" ∧ ext = some "pdf") ∨
      (t = "JPG" ∧ (ext = some "jpg" ∨ ext = some "jpeg")) ∨
      (t = "PNG" ∧ ext = some "png") := by
  unfold typeTagMatches
  split_ifs with h1 h2 h3 <;> simp_all

theorem any_typeTag_iff (accepted : List String) (ext : Option String) :
    accepted.any (typeTagMatches ext) = true ↔
      ("PDF" ∈ accepted ∧ ext = some "pdf") ∨
      ("JPG" ∈ accepted ∧ (ext = some "jpg" ∨ ext = some "jpeg")) ∨
      ("PNG" ∈ accepted ∧ ext = some "png") := by
  rw [List.any_eq_true]
  simp only [typeTagMatches_eq_true]
  constructor
  · rintro ⟨t, ht, ⟨rfl, h⟩ | ⟨rfl, h⟩ | ⟨rfl, h⟩⟩
    · exact Or.inl ⟨ht, h⟩
    · exact Or.inr (Or.inl ⟨ht, h⟩)
    · exact Or.inr (Or.inr ⟨ht, h⟩)
  · rintro (⟨ht, h⟩ | ⟨ht, h⟩ | ⟨ht, h⟩)
    · exact ⟨"PDF", ht, Or.inl ⟨rfl, h⟩⟩
    · exact ⟨"JPG", ht, Or.inr (Or.inl ⟨rfl, h⟩)⟩
    · exact ⟨"PNG", ht, Or.inr (Or.inr ⟨rfl, h⟩)⟩

/-- C3: `validateFile` passes exactly when the lowercased extension maps
to an accepted tag (PDF→.pdf, JPG→.jpg/.jpeg, PNG→.png) and the size is
at most `10 * 1024 * 1024` bytes; a failed type check yields the
unsupported-type message and a passed type check with an oversized file
yields the size message. -/
theorem validateFile_characterization (accepted : List String) (f : JsFile) :
    (validateFile accepted f = none ↔ specTypeOk accepted f ∧ f.size ≤ 10 * 1024 * 1024) ∧
    (¬ specTypeOk accepted f →
      validateFile accepted f =
        some ("Invalid file type. Accepted types: " ++ String.intercalate ", " accepted)) ∧
    (specTypeOk accepted f → 10 * 1024 * 1024 < f.size →
      validateFile accepted f = some "File size must be less than 10MB") := by
  have hiff : accepted.any (typeTagMatches (fileExtension f.name)) = true ↔
      specTypeOk accepted f := any_typeTag_iff accepted (fileExtension f.name)
  by_cases hs : specTypeOk accepted f
  · have hT : accepted.any (typeTagMatches (fileExtension f.name)) = true := hiff.mpr hs
    by_cases hz : f.size > maxSize
    · have hv : validateFile accepted f = some "File size must be less than 10MB" := by
        simp [validateFile, hT, hz]
      refine ⟨?_, fun h => absurd hs h, fun _ _ => hv⟩
      rw [hv]
      constructor
      · intro h; cases h
      · rintro ⟨-, hle⟩
        exact absurd hle (by unfold maxSize at hz; omega)
    · have hv : validateFile accepted f = none := by
        simp [validateFile, hT, hz]
      refine ⟨?_, fun h => absurd hs h, fun _ h => ?_⟩
      · rw [hv]
        simp only [true_iff]
        exact ⟨hs, by unfold maxSize at hz; omega⟩
      · exact absurd h (by unfold maxSize at hz; omega)
  · have hb : accepted.any (typeTagMatches (fileExtension f.name)) = false := by
      cases h : accepted.any (typeTagMatches (fileExtension f.name))
      · rfl
      · exact absurd (hiff.mp h) hs
    have hv : validateFile accepted f =
        some ("Invalid file type. Accepted types: " ++ String.intercalate ", " accepted) := by
      simp [validateFile, hb]
    refine ⟨?_, fun _ => hv, fun h => absurd h hs⟩
    rw [hv]
    constructor
    · intro h; cases h
    · rintro ⟨h, -⟩
      exact absurd h hs

/-- C1: when the capacity check passes but some candidate fails
validation, `handleFiles` appends nothing: the file list is unchanged
and the error list is exactly the per-file rejection messages, one for
each failing candidate. -/
theorem addFiles_allOrNothing (accepted : List String) (maxFiles : Nat)
    (p : JsFile → Option String) (g : Nat → String) (st : SlotState) (k : Nat)
    (batch : List JsFile)
    (hcap : st.files.length + batch.length ≤ maxFiles)
    (hbad : ∃ f ∈ batch, validateFile accepted f ≠ none) :
    (handleFiles accepted maxFiles p g st k batch).1.files = st.files ∧
    (handleFiles accepted maxFiles p g st k batch).1.errors =
      errorMsgs (validateFile accepted) batch ∧
    (handleFiles accepted maxFiles p g st k batch).1.errors ≠ [] ∧
    ∀ f ∈ batch, ∀ e, validateFile accepted f = some e →
      (f.name ++ ": " ++ e) ∈ (handleFiles accepted maxFiles p g st k batch).1.errors := by
  have hnot : ¬ (st.files.length + batch.length > maxFiles) := by omega
  have hne : errorMsgs (validateFile accepted) batch ≠ [] := by
    rcases hbad with ⟨f, hf, hv⟩
    intro h0
    exact hv ((errorMsgs_eq_nil_iff _ _).mp h0 f hf)
  have hpos : (errorMsgs (validateFile accepted) batch).length > 0 :=
    List.length_pos.mpr hne
  have hres : handleFiles accepted maxFiles p g st k batch =
      ({ files := st.files, errors := errorMsgs (validateFile accepted) batch },
        k + countValid (validateFile accepted) batch) := by
    simp only [handleFiles, if_neg hnot, processCandidates_eq, List.nil_append]
    rw [if_pos hpos]
  refine ⟨by rw [hres], by rw [hres], by rw [hres]; exact hne, ?_⟩
  intro f hf e he
  rw [hres]
  exact mem_errorMsgs _ hf he

theorem addFiles_allOrNothing_witness :
    (handleFiles ["PDF"] 2 (fun _ => none) (fun _ => "i") ⟨[], []⟩ 0
      [⟨"a.txt", 0, ""⟩, ⟨"b.pdf", 0, ""⟩]).1.files = [] :=
  (addFiles_allOrNothing ["PDF"] 2 (fun _ => none) (fun _ => "i") ⟨[], []⟩ 0
    [⟨"a.txt", 0, ""⟩, ⟨"b.pdf", 0, ""⟩] (by decide) (by decide)).1

/-- C2: a batch that would push the slot past `maxFiles` is rejected
whole with the capacity message, the file list is unchanged, and no
per-file validation happens (the id stream is not consumed). -/
theorem addFiles_capacityExceeded (accepted : List String) (maxFiles : Nat)
    (p : JsFile → Option String) (g : Nat → String) (st : SlotState) (k : Nat)
    (batch : List JsFile) (hcap : st.files.length + batch.length > maxFiles) :
    handleFiles accepted maxFiles p g st k batch =
      ({ files := st.files,
         errors := ["Maximum " ++ toString maxFiles ++ " file(s) allowed"] }, k) := by
  simp [handleFiles, if_pos hcap]

/-- A sample entry already present in a slot, used by concrete witnesses. -/
def sampleUploaded : UploadedFile := ⟨⟨"a.pdf", 0, "application/pdf"⟩, "id0", none⟩

theorem addFiles_capacityExceeded_witness :
    handleFiles ["PDF"] 1 (fun _ => none) (fun _ => "i") ⟨[sampleUploaded], []⟩ 0
        [⟨"b.pdf", 0, ""⟩] =
      ({ files := [sampleUploaded],
         errors := ["Maximum " ++ toString (1 : Nat) ++ " file(s) allowed"] }, 0) :=
  addFiles_capacityExceeded ["PDF"] 1 (fun _ => none) (fun _ => "i") ⟨[sampleUploaded], []⟩ 0
    [⟨"b.pdf", 0, ""⟩] (by decide)

/-- C8: `removeFile` keeps exactly the entries with a different id, in
their original order; with no matching entry it is the identity, and it
is idempotent. -/
theorem removeFile_characterization (id : String) (files : List UploadedFile) :
    List.Sublist (removeFile id files) files ∧
    (∀ f, f ∈ removeFile id files ↔ f ∈ files ∧ f.id ≠ id) ∧
    (removeFile id files = files ↔ ∀ f ∈ files, f.id ≠ id) ∧
    removeFile id (removeFile id files) = removeFile id files := by
  refine ⟨List.filter_sublist _, ?_, ?_, ?_⟩
  · intro f; simp [removeFile]
  · simp [removeFile, List.filter_eq_self]
  · simp [removeFile, List.filter_filter]

/-- C4: submitting with a required slot empty surfaces the
validation-incomplete failure, never enters the Submitting state, never
invokes the transfer call, and leaves the form data unchanged. -/
theorem handleSubmit_invalid (transferOk : Bool) (fd : FormData)
    (h : fd.nationalId = [] ∨ fd.commercialRegistration = [] ∨ fd.taxCertificate = []) :
    handleSubmit transferOk fd = ⟨fd, false, false, SubmitOutcome.validationIncomplete⟩ := by
  have hv : isFormValid fd = false := by
    rcases h with h | h | h <;> simp [isFormValid, h]
  simp [handleSubmit, hv]

theorem handleSubmit_invalid_witness :
    handleSubmit true emptyFormData =
      ⟨emptyFormData, false, false, SubmitOutcome.validationIncomplete⟩ :=
  handleSubmit_invalid true emptyFormData (Or.inl rfl)

/-- C5: submitting with every required slot non-empty invokes the
transfer call; success clears all four slots back to the empty form
data, failure leaves the form data unchanged. -/
theorem handleSubmit_valid (fd : FormData)
    (h1 : fd.nationalId ≠ []) (h2 : fd.commercialRegistration ≠ [])
    (h3 : fd.taxCertificate ≠ []) :
    handleSubmit true fd = ⟨emptyFormData, true, true, SubmitOutcome.success⟩ ∧
    handleSubmit false fd = ⟨fd, true, true, SubmitOutcome.failed⟩ := by
  have hv : isFormValid fd = true := by
    simp [isFormValid, List.length_pos, h1, h2, h3]
  constructor <;> simp [handleSubmit, hv]

/-- A form state with every slot (including the optional logo) filled. -/
def filledFormData : FormData :=
  ⟨[sampleUploaded], [sampleUploaded], [sampleUploaded], [sampleUploaded]⟩

theorem handleSubmit_valid_witness :
    handleSubmit true filledFormData = ⟨emptyFormData, true, true, SubmitOutcome.success⟩ ∧
    handleSubmit false filledFormData = ⟨filledFormData, true, true, SubmitOutcome.failed⟩ :=
  handleSubmit_valid filledFormData (by decide) (by decide) (by decide)

/-- C6: `isFormValid` holds exactly when the three required slots are
non-empty, and never depends on the optional logo slot. -/
theorem isFormValid_characterization (fd : FormData) (logo : List UploadedFile) :
    (isFormValid fd = true ↔
      fd.nationalId ≠ [] ∧ fd.commercialRegistration ≠ [] ∧ fd.taxCertificate ≠ []) ∧
    isFormValid { fd with companyLogo := logo } = isFormValid fd := by
  constructor
  · simp [isFormValid, List.length_pos, and_assoc]
  · rfl

theorem completedSections_le_three (fd : FormData) : completedSections fd ≤ 3 := by
  have h := List.length_filter_le (fun l : List UploadedFile => decide (l.length > 0))
    [fd.nationalId, fd.commercialRegistration, fd.taxCertificate]
  simpa [completedSections] using h

theorem getCompletionPercentage_table (fd : FormData) :
    getCompletionPercentage fd =
      (if completedSections fd = 0 then 0
       else if completedSections fd = 1 then 33
       else if completedSections fd = 2 then 67 else 100) := by
  rw [getCompletionPercentage]
  have hle := completedSections_le_three fd
  obtain ⟨n, hn⟩ : ∃ n, completedSections fd = n := ⟨_, rfl⟩
  rw [hn] at hle
  rw [hn]
  interval_cases n <;> norm_num [round_eq, Int.floor_eq_iff]

theorem completedSections_eq_zero_iff (fd : FormData) :
    completedSections fd = 0 ↔
      fd.nationalId = [] ∧ fd.commercialRegistration = [] ∧ fd.taxCertificate = [] := by
  by_cases h1 : fd.nationalId = [] <;> by_cases h2 : fd.commercialRegistration = [] <;>
    by_cases h3 : fd.taxCertificate = [] <;>
    simp [completedSections, h1, h2, h3, List.length_pos]

theorem completedSections_eq_three_iff (fd : FormData) :
    completedSections fd = 3 ↔
      fd.nationalId ≠ [] ∧ fd.commercialRegistration ≠ [] ∧ fd.taxCertificate ≠ [] := by
  by_cases h1 : fd.nationalId = [] <;> by_cases h2 : fd.commercialRegistration = [] <;>
    by_cases h3 : fd.taxCertificate = [] <;>
    simp [completedSections, h1, h2, h3, List.length_pos]

/-- C7: the completion percentage is the number of filled required slots
divided by three, times one hundred, rounded to the nearest integer
(`Math.round`); it ignores the logo slot, is 0 exactly when every
required slot is empty, and is 100 exactly when all three are filled. -/
theorem completionPercentage_characterization (fd : FormData) (logo : List UploadedFile) :
    getCompletionPercentage { fd with companyLogo := logo } = getCompletionPercentage fd ∧
    getCompletionPercentage fd = round ((completedSections fd : ℚ) / 3 * 100) ∧
    getCompletionPercentage fd =
      (if completedSections fd = 0 then 0
       else if completedSections fd = 1 then 33
       else if completedSections fd = 2 then 67 else 100) ∧
    ((fd.nationalId = [] ∧ fd.commercialRegistration = [] ∧ fd.taxCertificate = []) ↔
      getCompletionPercentage fd = 0) ∧
    ((fd.nationalId ≠ [] ∧ fd.commercialRegistration ≠ [] ∧ fd.taxCertificate ≠ []) ↔
      getCompletionPercentage fd = 100) := by
  refine ⟨rfl, rfl, getCompletionPercentage_table fd, ?_, ?_⟩
  · rw [← completedSections_eq_zero_iff, getCompletionPercentage_table]
    have hle := completedSections_le_three fd
    obtain ⟨n, hn⟩ : ∃ n, completedSections fd = n := ⟨_, rfl⟩
    rw [hn] at hle
    rw [hn]
    interval_cases n <;> norm_num
  · rw [← completedSections_eq_three_iff, getCompletionPercentage_table]
    have hle := completedSections_le_three fd
    obtain ⟨n, hn⟩ : ∃ n, completedSections fd = n := ⟨_, rfl⟩
    rw [hn] at hle
    rw [hn]
    interval_cases n <;> norm_num

theorem handleFiles_cases (accepted : List String) (maxFiles : Nat)
    (p : JsFile → Option String) (g : Nat → String) (st : SlotState) (k : Nat)
    (batch : List JsFile) :
    handleFiles accepted maxFiles p g st k batch =
      (if st.files.length + batch.length > maxFiles then
        ({ files := st.files,
           errors := ["Maximum " ++ toString maxFiles ++ " file(s) allowed"] }, k)
      else if errorMsgs (validateFile accepted) batch = [] then
        ({ files := st.files ++ validEntries (validateFile accepted) p g batch k,
           errors := [] }, k + countValid (validateFile accepted) batch)
      else
        ({ files := st.files, errors := errorMsgs (validateFile accepted) batch },
          k + countValid (validateFile accepted) batch)) := by
  by_cases hcap : st.files.length + batch.length > maxFiles
  · simp [handleFiles, hcap]
  · rw [if_neg hcap]
    by_cases he : errorMsgs (validateFile accepted) batch = []
    · rw [if_pos he]
      simp [handleFiles, if_neg hcap, processCandidates_eq, he]
    · rw [if_neg he]
      simp [handleFiles, if_neg hcap, processCandidates_eq, List.length_pos.mpr he]

theorem handleFiles_insertedIds_spec (accepted : List String) (maxFiles : Nat)
    (p : JsFile → Option String) (g : Nat → String) (st : SlotState) (k : Nat)
    (batch : List JsFile) :
    ∃ l : List Nat,
      l.Nodup ∧ (∀ i ∈ l, k ≤ i ∧ i < (handleFiles accepted maxFiles p g st k batch).2) ∧
      k ≤ (handleFiles accepted maxFiles p g st k batch).2 ∧
      ((handleFiles accepted maxFiles p g st k batch).1.files.drop st.files.length).map
        (fun u => u.id) = l.map g := by
  rw [handleFiles_cases]
  by_cases hcap : st.files.length + batch.length > maxFiles
  · rw [if_pos hcap]
    exact ⟨[], by simp, by simp, le_refl k, by simp [List.drop_length]⟩
  · rw [if_neg hcap]
    by_cases he : errorMsgs (validateFile accepted) batch = []
    · rw [if_pos he]
      refine ⟨List.range' k (countValid (validateFile accepted) batch), ?_, ?_, ?_, ?_⟩
      · exact List.nodup_range' k (countValid (validateFile accepted) batch)
      · intro i hi
        exact List.mem_range'_1.mp hi
      · exact Nat.le_add_right k _
      · simp [List.drop_left, validEntries_map_id]
    · rw [if_neg he]
      exact ⟨[], by simp, by simp, Nat.le_add_right k _, by simp [List.drop_length]⟩

/-- The trace invariant behind id uniqueness: the logged ids are the
image under the id stream of distinct stream positions below the
current read position. -/
def traceInv (g : Nat → String) (s : SlotTrace) : Prop :=
  ∃ l : List Nat, l.Nodup ∧ (∀ i ∈ l, i < s.counter) ∧ s.insertedIds = l.map g

theorem stepOp_preserves (accepted : List String) (maxFiles : Nat)
    (p : JsFile → Option String) (g : Nat → String) (s : SlotTrace) (op : SlotOp)
    (h : traceInv g s) : traceInv g (stepOp accepted maxFiles p g s op) := by
  cases op with
  | remove id => rcases h with ⟨l, h1, h2, h3⟩; exact ⟨l, h1, h2, h3⟩
  | add batch =>
    rcases h with ⟨l, h1, h2, h3⟩
    rcases handleFiles_insertedIds_spec accepted maxFiles p g s.state s.counter batch with
      ⟨l2, hn2, hb2, hk2, hm2⟩
    refine ⟨l ++ l2, ?_, ?_, ?_⟩
    · refine List.Nodup.append h1 hn2 ?_
      intro a ha hb
      have ha2 := h2 a ha
      have hb3 := (hb2 a hb).1
      omega
    · intro i hi
      rcases List.mem_append.mp hi with hi | hi
      · exact lt_of_lt_of_le (h2 i hi) hk2
      · exact (hb2 i hi).2
    · simp [stepOp, h3, hm2]

theorem runOps_inv (accepted : List String) (maxFiles : Nat)
    (p : JsFile → Option String) (g : Nat → String) (ops : List SlotOp) :
    traceInv g (runOps accepted maxFiles p g ops) := by
  suffices h : ∀ (ops : List SlotOp) (s : SlotTrace), traceInv g s →
      traceInv g (ops.foldl (stepOp accepted maxFiles p g) s) from
    h ops ⟨⟨[], []⟩, 0, []⟩ ⟨[], by simp, by simp, rfl⟩
  intro ops
  induction ops with
  | nil => intro s hs; exact hs
  | cons op rest ih =>
    intro s hs
    exact ih _ (stepOp_preserves accepted maxFiles p g s op hs)

/-- C9 fails as stated: the generated ids are drawn from the browser's
randomness source with no uniqueness check, so a stream that happens to
repeat a value yields two entries of the same slot with equal ids.
Here the stream constantly returns "dup" and one accepted batch of two
valid files logs the id "dup" twice. -/
theorem slotIds_not_always_distinct :
    ¬ (runOps ["PDF"] 5 (fun _ => none) (fun _ => "dup")
        [SlotOp.add [⟨"a.pdf", 0, ""⟩, ⟨"b.pdf", 0, ""⟩]]).insertedIds.Nodup := by
  decide

/-- C9 amended: across any sequence of add/remove operations on a slot,
the ids of all entries ever inserted are pairwise distinct provided the
id-generation stream never repeats a value (the code itself enforces no
uniqueness; each accepted file just consumes the next stream value). -/
theorem slotIds_distinct_of_injective (accepted : List String) (maxFiles : Nat)
    (p : JsFile → Option String) (g : Nat → String) (hinj : Function.Injective g)
    (ops : List SlotOp) :
    (runOps accepted maxFiles p g ops).insertedIds.Nodup := by
  rcases runOps_inv accepted maxFiles p g ops with ⟨l, h1, h2, h3⟩
  rw [h3]
  exact h1.map hinj

theorem slotIds_distinct_of_injective_witness :
    (runOps ["PDF"] 5 (fun _ => none) (fun n => String.mk (List.replicate n 'a'))
      [SlotOp.add [⟨"a.pdf", 0, ""⟩, ⟨"b.pdf", 0, ""⟩]]).insertedIds.Nodup :=
  slotIds_distinct_of_injective ["PDF"] 5 (fun _ => none)
    (fun n => String.mk (List.replicate n 'a'))
    (fun a b h => by
      have h3 : List.replicate a 'a' = List.replicate b 'a' := congrArg String.data h
      simpa using congrArg List.length h3)
    [SlotOp.add [⟨"a.pdf", 0, ""⟩, ⟨"b.pdf", 0, ""⟩]]

theorem splitOnChar_of_not_mem (sep : Char) (l : List Char) (h : sep ∉ l) :
    splitOnChar sep l = [l] := by
  induction l with
  | nil => rfl
  | cons c rest ih =>
    have hc : ¬ c = sep := by
      intro hcc
      exact h (by simp [hcc])
    have hr : sep ∉ rest := by
      intro hm
      exact h (by simp [hm])
    simp [splitOnChar, ih hr, hc]

/-- C10: a name with no dot is its own extension after lowercasing
(JavaScript `split` returns the whole string as the single segment), so
the bare names "pdf", "jpg", "jpeg" and "png" pass the type check of any
slot accepting the corresponding tag. -/
theorem extension_of_dotless_name (accepted : List String) (name : String) (sz : Nat)
    (mt : String) (hnd : '.' ∉ name.toList) (hsz : sz ≤ maxSize) :
    fileExtension name = some (String.mk (name.toList.map Char.toLower)) ∧
    ("PDF" ∈ accepted → validateFile accepted ⟨"pdf", sz, mt⟩ = none) ∧
    ("JPG" ∈ accepted → validateFile accepted ⟨"jpg", sz, mt⟩ = none) ∧
    ("JPG" ∈ accepted → validateFile accepted ⟨"jpeg", sz, mt⟩ = none) ∧
    ("PNG" ∈ accepted → validateFile accepted ⟨"png", sz, mt⟩ = none) := by
  have hz : ¬ sz > maxSize := by omega
  refine ⟨?_, fun hm => ?_, fun hm => ?_, fun hm => ?_, fun hm => ?_⟩
  · unfold fileExtension
    rw [splitOnChar_of_not_mem '.' name.toList hnd]
    rfl
  · have ha : accepted.any (typeTagMatches (fileExtension "pdf")) = true :=
      List.any_eq_true.mpr ⟨"PDF", hm, by decide⟩
    simp [validateFile, ha, hz]
  · have ha : accepted.any (typeTagMatches (fileExtension "jpg")) = true :=
      List.any_eq_true.mpr ⟨"JPG", hm, by decide⟩
    simp [validateFile, ha, hz]
  · have ha : accepted.any (typeTagMatches (fileExtension "jpeg")) = true :=
      List.any_eq_true.mpr ⟨"JPG", hm, by decide⟩
    simp [validateFile, ha, hz]
  · have ha : accepted.any (typeTagMatches (fileExtension "png")) = true :=
      List.any_eq_true.mpr ⟨"PNG", hm, by decide⟩
    simp [validateFile, ha, hz]

theorem extension_of_dotless_name_witness :
    fileExtension "abc" = some (String.mk ("abc".toList.map Char.toLower)) :=
  (extension_of_dotless_name ["PDF", "JPG", "PNG"] "abc" 0 "" (by decide) (by decide)).1

example : validateFile ["PDF"] ⟨"a.pdf", 3, "application/pdf"⟩ = none := by decide
example : validateFile ["PDF"] ⟨"a.txt", 3, ""⟩ =
    some "Invalid file type. Accepted types: PDF" := by decide
example : validateFile ["PDF"] ⟨"pdf", 3, ""⟩ = none := by decide
example : validateFile ["PDF", "JPG"] ⟨"x.JPeG", 3, ""⟩ = none := by decide
example : validateFile ["PDF"] ⟨"a.pdf", 10 * 1024 * 1024, ""⟩ = none := by decide
example : validateFile ["PDF"] ⟨"a.pdf", 10 * 1024 * 1024 + 1, ""⟩ =
    some "File size must be less than 10MB" := by decide
